import Mathlib

/-!
# Verification of the Tetris game engine (`src/src/App.tsx`)

Shallow embedding of the game logic of the single React component in
`src/src/App.tsx`.  The component's `useState` fields become the fields of
`GameState`; each `useCallback` handler becomes a pure state-transforming
function; the `useEffect` hooks (spawn-if-missing, keyboard handler, tick
loop, reactive game-over detection) become explicit step functions.  Board
cells hold `Option String` (`none` models the JavaScript cell value `0`,
`some c` models a color string).  Coordinates are `Int`, as JavaScript
numbers are used only at integral values here.
-/

namespace Tetris

/-- `BOARD_WIDTH` from `App.tsx` line 3. -/
def BOARD_WIDTH : Nat := 10

/-- `BOARD_HEIGHT` from `App.tsx` line 4. -/
def BOARD_HEIGHT : Nat := 20

/-- A board cell: `none` models the JavaScript value `0` (empty), `some c`
models a color string. -/
abbrev Cell := Option String

/-- The board: a list of rows, each a list of cells (`(string | 0)[][]`). -/
abbrev Board := List (List Cell)

/-- `interface Tetromino` (lines 7-10): a shape matrix of numbers (`0` =
unoccupied, nonzero = occupied, mirroring JavaScript truthiness) and a
color. -/
structure Tetromino where
  shape : List (List Nat)
  color : String
  deriving DecidableEq, Repr

/-- The seven canonical pieces, `TETROMINOS` (lines 12-20). -/
def TETROMINOS : List Tetromino :=
  [ { shape := [[1, 1], [1, 1]], color := "#ffd800" },
    { shape := [[1, 1, 1, 1]], color := "#00f0f0" },
    { shape := [[1, 1, 1], [0, 1, 0]], color := "#aa00ff" },
    { shape := [[1, 1, 0], [0, 1, 1]], color := "#ff0000" },
    { shape := [[0, 1, 1], [1, 1, 0]], color := "#00ff00" },
    { shape := [[1, 1, 1], [1, 0, 0]], color := "#0000ff" },
    { shape := [[1, 1, 1], [0, 0, 1]], color := "#ff7f00" } ]

/-- An empty row of `BOARD_WIDTH` cells (`Array(BOARD_WIDTH).fill(0)`). -/
def emptyRow : List Cell := List.replicate BOARD_WIDTH none

/-- `createEmptyBoard` (lines 22-23): `BOARD_HEIGHT` fresh empty rows. -/
def createEmptyBoard : Board := List.replicate BOARD_HEIGHT emptyRow

/-- The component's `useState` fields (lines 26-30) gathered in a record.
The score is `Int`, faithful to the JavaScript number arithmetic in
`checkLines`. -/
structure GameState where
  board : Board
  currentPiece : Option Tetromino
  position : Int × Int
  gameOver : Bool
  score : Int
  deriving DecidableEq, Repr

/-- The initial state of the `useState` hooks (lines 26-30): empty board, no
current piece, position `(0, 0)`, not game over, score `0`. -/
def initialState : GameState :=
  { board := createEmptyBoard
    currentPiece := none
    position := (0, 0)
    gameOver := false
    score := 0 }

/-- `spawnNewPiece` (lines 32-36): set the current piece (the random choice
from `TETROMINOS` is modelled by the explicit parameter `pick`) and place its
origin at `(⌊BOARD_WIDTH / 2⌋ - 1, 0)`. -/
def spawnNewPiece (pick : Tetromino) (s : GameState) : GameState :=
  { s with currentPiece := some pick
           position := ((BOARD_WIDTH : Int) / 2 - 1, 0) }

/-- Shape-matrix lookup `shape[j][i]`, with `0` (falsy, unoccupied) for
indices outside the matrix, matching JavaScript `undefined` truthiness. -/
def shapeCellAt (shape : List (List Nat)) (j i : Nat) : Nat :=
  (shape.getD j []).getD i 0

/-- Board lookup `board[cy][cx]`.  Only used under guards ensuring
`0 ≤ cy`, `0 ≤ cx`, matching the short-circuit evaluation on line 47. -/
def cellAt (b : Board) (cx cy : Int) : Cell :=
  (b.getD cy.toNat []).getD cx.toNat none

/-- The rejection condition of `isValidMove` (lines 44-48) for one absolute
board coordinate `(cx, cy)` (column, row): out of bounds horizontally, below
the bottom, or (at a visible row) landing on an occupied cell. -/
abbrev blockedAt (b : Board) (cx cy : Int) : Prop :=
  cx < 0 ∨ (BOARD_WIDTH : Int) ≤ cx ∨ (BOARD_HEIGHT : Int) ≤ cy ∨
    (0 ≤ cy ∧ cellAt b cx cy ≠ none)

/-- `isValidMove` (lines 38-55): the nested `for` loops over every shape
index; an occupied shape cell whose absolute coordinate is blocked makes the
whole move invalid.  A pure predicate: it reads the board and mutates
nothing. -/
def isValidMove (board : Board) (piece : Tetromino) (newX newY : Int) : Bool :=
  (List.range piece.shape.length).all fun j =>
    (List.range (piece.shape.getD j []).length).all fun i =>
      !(decide (shapeCellAt piece.shape j i ≠ 0) &&
        decide (blockedAt board (newX + (i : Int)) (newY + (j : Int))))

/-- Whether the piece anchored at `(px, py)` has an occupied shape cell at
absolute board coordinate `(cx, cy)`; i.e. the loop of `mergePieceToBoard`
(lines 60-65) writes this cell. -/
def coversCell (p : Tetromino) (px py cx cy : Int) : Bool :=
  decide (px ≤ cx) && decide (py ≤ cy) &&
    decide (shapeCellAt p.shape (cy - py).toNat (cx - px).toNat ≠ 0)

/-- The board produced by the write loop of `mergePieceToBoard` (lines
59-66), expressed cell-wise: a cell covered by an occupied shape cell
receives the piece's color, every other cell keeps its value.  The loop only
ever writes inside the board at reachable merges (see `reachable_inv`), where
this agrees with the JavaScript index assignments. -/
def mergedBoard (b : Board) (p : Tetromino) (px py : Int) : Board :=
  b.enum.map fun yrow => yrow.2.enum.map fun xcell =>
    if coversCell p px py (xcell.1 : Int) (yrow.1 : Int) then some p.color
    else xcell.2

/-- `mergePieceToBoard` (lines 57-68): no-op without a current piece,
otherwise stamp the piece's occupied cells onto the board. -/
def mergePieceToBoard (s : GameState) : GameState :=
  match s.currentPiece with
  | none => s
  | some p =>
    { s with board := mergedBoard s.board p s.position.1 s.position.2 }

/-- `moveDown` (lines 70-77): descend one row if valid, otherwise merge and
spawn a replacement piece (`pick` models the random choice). -/
def moveDown (pick : Tetromino) (s : GameState) : GameState :=
  match s.currentPiece with
  | none => s
  | some p =>
    if isValidMove s.board p s.position.1 (s.position.2 + 1) then
      { s with position := (s.position.1, s.position.2 + 1) }
    else
      spawnNewPiece pick (mergePieceToBoard s)

/-- `moveHorizontally` (lines 79-83): shift the column by `direction` when
valid, otherwise do nothing. -/
def moveHorizontally (direction : Int) (s : GameState) : GameState :=
  match s.currentPiece with
  | none => s
  | some p =>
    if isValidMove s.board p (s.position.1 + direction) s.position.2 then
      { s with position := (s.position.1 + direction, s.position.2) }
    else s

/-- The rotated shape matrix of `rotate` (lines 89-91):
`shape[0].map((_, index) => shape.map(row => row[index]).reverse())`. -/
def rotateShape (shape : List (List Nat)) : List (List Nat) :=
  (List.range (shape.headD []).length).map fun i =>
    (shape.map fun row => row.getD i 0).reverse

/-- `rotate` (lines 85-96): build the rotated piece (same color, unchanged
origin) and adopt it only when `isValidMove` accepts it. -/
def rotate (s : GameState) : GameState :=
  match s.currentPiece with
  | none => s
  | some p =>
    let rotatedPiece : Tetromino := { p with shape := rotateShape p.shape }
    if isValidMove s.board rotatedPiece s.position.1 s.position.2 then
      { s with currentPiece := some rotatedPiece }
    else s

/-- `row.some(cell => cell === 0)` (line 99): the row has an empty cell, so
it is kept by the filter. -/
def rowHasEmpty (row : List Cell) : Bool := row.any fun cell => cell == none

/-- The `while (newBoard.length < BOARD_HEIGHT) newBoard.unshift(...)` loop
of lines 103-105, with explicit fuel (`BOARD_HEIGHT` iterations always
suffice, since each iteration grows the board by one row). -/
def padRowsAux : Nat → Board → Board
  | 0, b => b
  | n + 1, b =>
    if BOARD_HEIGHT ≤ b.length then b else padRowsAux n (emptyRow :: b)

/-- Prepend empty rows until the board has at least `BOARD_HEIGHT` rows. -/
def padRows (b : Board) : Board := padRowsAux BOARD_HEIGHT b

/-- `checkLines` (lines 98-107): drop every row without an empty cell, count
the dropped rows as `BOARD_HEIGHT - remaining`, add `100` points each, and
pad the board back to `BOARD_HEIGHT` rows with empty rows on top. -/
def checkLines (s : GameState) : GameState :=
  let newBoard := s.board.filter rowHasEmpty
  let linesCleared : Int := (BOARD_HEIGHT : Int) - (newBoard.length : Int)
  { s with score := s.score + linesCleared * 100
           board := padRows newBoard }

/-- The effect on lines 109-111: spawn a piece when there is none (the
random choice is the parameter `pick`). -/
def spawnEffect (pick : Tetromino) (s : GameState) : GameState :=
  if s.currentPiece = none then spawnNewPiece pick s else s

/-- The keys the handler on lines 113-123 distinguishes. -/
inductive Key where
  | left
  | right
  | down
  | up
  | other
  deriving DecidableEq, Repr

/-- `handleKeyPress` (lines 113-123): ignore everything once `gameOver`,
otherwise dispatch the arrow keys. -/
def handleKeyPress (k : Key) (pick : Tetromino) (s : GameState) : GameState :=
  if s.gameOver then s
  else
    match k with
    | .left => moveHorizontally (-1) s
    | .right => moveHorizontally 1 s
    | .down => moveDown pick s
    | .up => rotate s
    | .other => s

/-- One firing of the interval registered on lines 131-142: the interval is
not registered at all when `gameOver`, otherwise it runs `moveDown` then
`checkLines` (spec §5's tick pathway, modelled with each state update applied
before the next read). -/
def gameTick (pick : Tetromino) (s : GameState) : GameState :=
  if s.gameOver then s else checkLines (moveDown pick s)

/-- The reactive game-over effect (lines 144-148): when the current piece is
invalid at its own position, latch `gameOver` to `true`. -/
def checkGameOverEffect (s : GameState) : GameState :=
  match s.currentPiece with
  | none => s
  | some p =>
    if isValidMove s.board p s.position.1 s.position.2 then s
    else { s with gameOver := true }

/-- The two stimulus sources of the engine: a key press or a timer tick. -/
inductive Input where
  | key (k : Key)
  | tick
  deriving DecidableEq, Repr

/-- One complete engine step: handle the stimulus, then run the follow-up
effects (spawn-if-missing, lines 109-111, and the reactive game-over check,
lines 144-148) that React fires after the state updates settle. -/
def engineStep (i : Input) (pick : Tetromino) (s : GameState) : GameState :=
  checkGameOverEffect (spawnEffect pick
    (match i with
     | .key k => handleKeyPress k pick s
     | .tick => gameTick pick s))

/-- The states the engine can actually be in: the initial state and
everything reachable from it by engine steps (with arbitrary random piece
choices). -/
inductive Reachable : GameState → Prop where
  | init : Reachable initialState
  | next (i : Input) (pick : Tetromino) {s : GameState} :
      Reachable s → Reachable (engineStep i pick s)

/-- The transpose of a shape matrix's bounding box: row `i` of the result is
column `i` of the input (matching the spec's word "transposing"). -/
def transposeBox (m : List (List Nat)) : List (List Nat) :=
  (List.range (m.headD []).length).map fun i => m.map fun row => row.getD i 0

/-- The rotation transform as the spec's §4.3 words describe it ("compute a
new shape matrix by transposing and reversing rows"): transpose the bounding
box, then reverse each row.  Stated separately from `rotateShape` (the
source's expression) so the two can be compared. -/
def rotateSpecTransform (m : List (List Nat)) : List (List Nat) :=
  (transposeBox m).map List.reverse

/-- The O piece (`TETROMINOS[0]`), used for concrete witness states. -/
def pieceO : Tetromino := { shape := [[1, 1], [1, 1]], color := "#ffd800" }

/-- A concrete running state: O piece at the spawn position on an empty
board. -/
def stateO : GameState :=
  { board := createEmptyBoard
    currentPiece := some pieceO
    position := (4, 0)
    gameOver := false
    score := 0 }

/-- A concrete running state: O piece resting on the floor (rows 18-19). -/
def stateBottom : GameState := { stateO with position := (4, 18) }

/-- A concrete running state: O piece against the left wall. -/
def stateLeftWall : GameState := { stateO with position := (0, 0) }

/-- A concrete terminal state: game over with the O piece still current. -/
def stateOver : GameState := { stateO with gameOver := true }

/-- A concrete board whose two bottom rows are completely occupied. -/
def boardTwoFull : Board :=
  List.replicate (BOARD_HEIGHT - 2) emptyRow ++
    List.replicate 2 (List.replicate BOARD_WIDTH (some pieceO.color))

/-- A concrete state holding `boardTwoFull`, used as a line-clear witness. -/
def stateTwoFull : GameState := { stateO with board := boardTwoFull }

/-- Well-formed board: exactly `BOARD_HEIGHT` rows of `BOARD_WIDTH` cells. -/
def boardWF (b : Board) : Prop :=
  b.length = BOARD_HEIGHT ∧ ∀ r ∈ b, r.length = BOARD_WIDTH

/-- The inductive invariant of the engine: the board is well-formed, the
piece origin's row is nonnegative, and while the game is running the current
piece sits at a valid position. -/
def Inv (s : GameState) : Prop :=
  boardWF s.board ∧ 0 ≤ s.position.2 ∧
    (s.gameOver = false → ∀ p, s.currentPiece = some p →
      isValidMove s.board p s.position.1 s.position.2 = true)

/-! ## Basic lemmas about `isValidMove` and `mergedBoard` -/

/-- An occupied shape lookup is necessarily inside the matrix (outside it,
`shapeCellAt` defaults to `0`). -/
theorem shapeCellAt_ne_zero_lt {shape : List (List Nat)} {j i : Nat}
    (h : shapeCellAt shape j i ≠ 0) :
    j < shape.length ∧ i < (shape.getD j []).length := by
  constructor
  · by_contra hj
    push_neg at hj
    refine h ?_
    unfold shapeCellAt
    rw [List.getD_eq_default _ _ hj]
    simp
  · by_contra hi
    push_neg at hi
    have : (shape.getD j []).getD i 0 = 0 := List.getD_eq_default _ _ hi
    exact h this

/-- `isValidMove` succeeds exactly when no occupied shape cell lands on a
blocked coordinate. -/
theorem isValidMove_eq_true_iff (b : Board) (p : Tetromino) (ox oy : Int) :
    isValidMove b p ox oy = true ↔
      ∀ j i, shapeCellAt p.shape j i ≠ 0 →
        ¬ blockedAt b (ox + (i : Int)) (oy + (j : Int)) := by
  simp only [isValidMove, List.all_eq_true, List.mem_range, Bool.not_eq_true',
    Bool.and_eq_false_iff, decide_eq_false_iff_not, not_not]
  constructor
  · intro h j i hocc
    obtain ⟨hj, hi⟩ := shapeCellAt_ne_zero_lt hocc
    rcases h j hj i hi with h1 | h2
    · exact absurd h1 hocc
    · exact h2
  · intro h j hj i hi
    by_cases hocc : shapeCellAt p.shape j i = 0
    · exact Or.inl hocc
    · exact Or.inr (h j i hocc)

/-- Merging never changes the number of rows. -/
theorem mergedBoard_length (b : Board) (p : Tetromino) (px py : Int) :
    (mergedBoard b p px py).length = b.length := by
  simp [mergedBoard]

/-- Cell-level description of the merged board: covered cells receive the
piece's color, all others are untouched. -/
theorem mergedBoard_getD (b : Board) (p : Tetromino) (px py : Int) (j i : Nat)
    (hj : j < b.length) (hi : i < (b.getD j []).length) :
    ((mergedBoard b p px py).getD j []).getD i none =
      if coversCell p px py (i : Int) (j : Int) then some p.color
      else (b.getD j []).getD i none := by
  have hj' : j < (mergedBoard b p px py).length := by
    rw [mergedBoard_length]; exact hj
  have hb : b.getD j [] = b[j] := List.getD_eq_getElem b [] hj
  rw [List.getD_eq_getElem _ [] hj']
  have hrow : (mergedBoard b p px py)[j] =
      (b[j].enum.map fun xcell =>
        if coversCell p px py (xcell.1 : Int) (j : Int) then some p.color
        else xcell.2) := by
    simp only [mergedBoard]
    rw [List.getElem_map, List.getElem_enum]
  rw [hrow]
  have hi' : i < b[j].length := by rw [← hb]; exact hi
  have hi'' : i < (b[j].enum.map fun xcell =>
      if coversCell p px py (xcell.1 : Int) (j : Int) then some p.color
      else xcell.2).length := by
    simpa using hi'
  rw [List.getD_eq_getElem _ none hi'']
  rw [List.getElem_map, List.getElem_enum]
  rw [hb, List.getD_eq_getElem _ none hi']

/-- Merging never changes the length of any row. -/
theorem mergedBoard_row_length (b : Board) (p : Tetromino) (px py : Int)
    (j : Nat) (hj : j < b.length) :
    ((mergedBoard b p px py).getD j []).length = (b.getD j []).length := by
  have hj' : j < (mergedBoard b p px py).length := by
    rw [mergedBoard_length]; exact hj
  rw [List.getD_eq_getElem _ [] hj', List.getD_eq_getElem b [] hj]
  simp only [mergedBoard]
  rw [List.getElem_map, List.getElem_enum]
  simp

/-! ## Claim theorems -/

/-- C1: `isValidMove` returns `false` exactly when some occupied shape cell,
placed at its absolute coordinate, is out of bounds horizontally, at or below
the bottom, or (at a visible row) on an occupied board cell; a cell at a
negative row that is horizontally in bounds is never blocking, and an
out-of-bounds coordinate is blocking regardless of the board's contents.
`isValidMove` is a pure predicate over its arguments. -/
theorem isValidMove_false_char (b : Board) (p : Tetromino) (ox oy cx cy : Int) :
    (isValidMove b p ox oy = false ↔
      ∃ j i, shapeCellAt p.shape j i ≠ 0 ∧
        blockedAt b (ox + (i : Int)) (oy + (j : Int))) ∧
    (cy < 0 → 0 ≤ cx → cx < (BOARD_WIDTH : Int) → ¬ blockedAt b cx cy) ∧
    ((cx < 0 ∨ (BOARD_WIDTH : Int) ≤ cx ∨ (BOARD_HEIGHT : Int) ≤ cy) →
      blockedAt b cx cy) := by
  refine ⟨?_, ?_, ?_⟩
  · rw [← Bool.not_eq_true, isValidMove_eq_true_iff]
    push_neg
    constructor
    · rintro ⟨j, i, hocc, hblk⟩
      exact ⟨j, i, hocc, hblk⟩
    · rintro ⟨j, i, hocc, hblk⟩
      exact ⟨j, i, hocc, hblk⟩
  · intro hcy hcx1 hcx2
    simp only [blockedAt, not_or]
    refine ⟨by omega, by omega, by omega, ?_⟩
    rintro ⟨h0, -⟩
    omega
  · intro h
    rcases h with h | h | h
    · exact Or.inl h
    · exact Or.inr (Or.inl h)
    · exact Or.inr (Or.inr (Or.inl h))

/-- The source's rotation expression equals the spec's "transpose, then
reverse rows" transform. -/
theorem rotateShape_eq_spec (m : List (List Nat)) :
    rotateShape m = rotateSpecTransform m := by
  simp only [rotateShape, rotateSpecTransform, transposeBox, List.map_map]
  rfl

/-- C2: with a current piece, `moveDown` either descends one row (when the
position one row lower is valid) changing nothing else, or merges the piece
into the board — every covered cell receives the piece's color, every other
cell is untouched — and replaces it by the freshly spawned `pick` at origin
`(⌊BOARD_WIDTH / 2⌋ - 1, 0)`. -/
theorem moveDown_spec (s : GameState) (p pick : Tetromino) (j i : Nat)
    (hp : s.currentPiece = some p) :
    (isValidMove s.board p s.position.1 (s.position.2 + 1) = true →
      moveDown pick s = { s with position := (s.position.1, s.position.2 + 1) }) ∧
    (isValidMove s.board p s.position.1 (s.position.2 + 1) = false →
      moveDown pick s =
        { s with board := mergedBoard s.board p s.position.1 s.position.2
                 currentPiece := some pick
                 position := ((BOARD_WIDTH : Int) / 2 - 1, 0) } ∧
      (j < s.board.length → i < (s.board.getD j []).length →
        ((mergedBoard s.board p s.position.1 s.position.2).getD j []).getD i none =
          if coversCell p s.position.1 s.position.2 (i : Int) (j : Int)
          then some p.color
          else (s.board.getD j []).getD i none)) := by
  constructor
  · intro hv
    simp [moveDown, hp, hv]
  · intro hv
    refine ⟨?_, fun hj hi => mergedBoard_getD _ _ _ _ _ _ hj hi⟩
    simp [moveDown, hp, hv, spawnNewPiece, mergePieceToBoard]

/-- C2 witness: the O piece resting on the floor merges and respawns. -/
theorem moveDown_spec_witness :
    moveDown pieceO stateBottom =
      { stateBottom with
          board := mergedBoard stateBottom.board pieceO 4 18
          currentPiece := some pieceO
          position := ((BOARD_WIDTH : Int) / 2 - 1, 0) } :=
  ((moveDown_spec stateBottom pieceO pieceO 0 0 rfl).2 (by decide)).1

/-- C6: with a current piece and direction `±1`, `moveHorizontally` shifts
the column by the direction when the target is valid and otherwise leaves the
whole state untouched (a silent no-op, not an error). -/
theorem moveHorizontally_spec (s : GameState) (p : Tetromino) (d : Int)
    (hp : s.currentPiece = some p) (hd : d = -1 ∨ d = 1) :
    (isValidMove s.board p (s.position.1 + d) s.position.2 = true →
      moveHorizontally d s =
        { s with position := (s.position.1 + d, s.position.2) }) ∧
    (isValidMove s.board p (s.position.1 + d) s.position.2 = false →
      moveHorizontally d s = s) := by
  constructor <;> intro hv <;> simp [moveHorizontally, hp, hv]

/-- C6 witness: against the left wall, the move left is rejected and the
state is unchanged. -/
theorem moveHorizontally_spec_witness :
    moveHorizontally (-1) stateLeftWall = stateLeftWall :=
  (moveHorizontally_spec stateLeftWall pieceO (-1) rfl (Or.inl rfl)).2 (by decide)

/-- C4: `rotate` computes the candidate as the transpose-and-reverse-rows
transform of the shape (no wall kick, origin untouched), adopts it exactly
when `isValidMove` accepts it at the unchanged origin, and otherwise leaves
shape, position, board and score all unchanged. -/
theorem rotate_spec (s : GameState) (p : Tetromino)
    (hp : s.currentPiece = some p) :
    rotateShape p.shape = rotateSpecTransform p.shape ∧
    (isValidMove s.board { p with shape := rotateShape p.shape }
        s.position.1 s.position.2 = true →
      rotate s =
        { s with currentPiece := some { p with shape := rotateShape p.shape } }) ∧
    (isValidMove s.board { p with shape := rotateShape p.shape }
        s.position.1 s.position.2 = false →
      rotate s = s) := by
  refine ⟨rotateShape_eq_spec p.shape, ?_, ?_⟩ <;> intro hv <;>
    simp [rotate, hp, hv]

/-- C4 witness: rotating the O piece at spawn on an empty board is accepted
and replaces the shape by its (identical) rotation. -/
theorem rotate_spec_witness :
    rotate stateO =
      { stateO with
          currentPiece := some { pieceO with shape := rotateShape pieceO.shape } } :=
  (rotate_spec stateO pieceO rfl).2.1 (by decide)

/-- The padding loop prepends exactly enough empty rows to reach
`BOARD_HEIGHT`, provided the fuel covers the deficit. -/
theorem padRowsAux_eq (n : Nat) (b : Board) (h : BOARD_HEIGHT ≤ b.length + n) :
    padRowsAux n b = List.replicate (BOARD_HEIGHT - b.length) emptyRow ++ b := by
  induction n generalizing b with
  | zero =>
    have h0 : BOARD_HEIGHT - b.length = 0 := by omega
    simp [padRowsAux, h0]
  | succ n ih =>
    by_cases hb : BOARD_HEIGHT ≤ b.length
    · have h0 : BOARD_HEIGHT - b.length = 0 := by omega
      simp [padRowsAux, hb, h0]
    · have hrec := ih (emptyRow :: b) (by simp only [List.length_cons]; omega)
      simp only [padRowsAux, if_neg hb]
      rw [hrec]
      have hk : BOARD_HEIGHT - b.length = (BOARD_HEIGHT - (emptyRow :: b).length) + 1 := by
        simp only [List.length_cons]
        omega
      rw [hk, List.replicate_succ']
      simp

/-- Same statement for `padRows` itself (truncated subtraction makes it
unconditional, exactly as the `while` guard does). -/
theorem padRows_eq (b : Board) :
    padRows b = List.replicate (BOARD_HEIGHT - b.length) emptyRow ++ b :=
  padRowsAux_eq BOARD_HEIGHT b (by omega)

/-- On a full-height board, kept rows and full rows partition the height. -/
theorem filter_length_add_countP (b : Board) (h : b.length = BOARD_HEIGHT) :
    (b.filter rowHasEmpty).length + b.countP (fun r => !rowHasEmpty r) =
      BOARD_HEIGHT := by
  rw [List.countP_eq_length_filter, ← h]
  exact (List.length_eq_length_filter_add rowHasEmpty).symm

/-- C3: `checkLines` removes exactly the rows without an empty cell
(keeping the remaining rows in order), prepends that many empty rows on top,
adds exactly `100` points per removed row (strictly linear), leaves the other
state fields alone; two full rows add exactly `200`, and with no full row the
whole state is unchanged. -/
theorem checkLines_spec (s : GameState) (h : s.board.length = BOARD_HEIGHT) :
    (checkLines s).score =
      s.score + (s.board.countP fun r => !rowHasEmpty r) * 100 ∧
    (checkLines s).board =
      List.replicate (s.board.countP fun r => !rowHasEmpty r) emptyRow ++
        s.board.filter rowHasEmpty ∧
    (checkLines s).currentPiece = s.currentPiece ∧
    (checkLines s).position = s.position ∧
    (checkLines s).gameOver = s.gameOver ∧
    ((s.board.countP fun r => !rowHasEmpty r) = 0 → checkLines s = s) ∧
    ((s.board.countP fun r => !rowHasEmpty r) = 2 →
      (checkLines s).score = s.score + 200) := by
  have hsum := filter_length_add_countP s.board h
  have hscore : (checkLines s).score =
      s.score + (s.board.countP fun r => !rowHasEmpty r) * 100 := by
    show s.score +
        ((BOARD_HEIGHT : Int) - ((s.board.filter rowHasEmpty).length : Int)) * 100 = _
    have hcast : (BOARD_HEIGHT : Int) - ((s.board.filter rowHasEmpty).length : Int) =
        ((s.board.countP fun r => !rowHasEmpty r : Nat) : Int) := by
      omega
    rw [hcast]
  have hboard : (checkLines s).board =
      List.replicate (s.board.countP fun r => !rowHasEmpty r) emptyRow ++
        s.board.filter rowHasEmpty := by
    show padRows (s.board.filter rowHasEmpty) = _
    rw [padRows_eq]
    congr 2
    omega
  refine ⟨hscore, hboard, rfl, rfl, rfl, ?_, ?_⟩
  · intro h0
    have hfilter : s.board.filter rowHasEmpty = s.board := by
      rw [List.filter_eq_self]
      intro r hr
      have hr' := List.countP_eq_zero.mp h0 r hr
      simpa using hr'
    have hrec : checkLines s =
        { s with score := (checkLines s).score, board := (checkLines s).board } := rfl
    rw [hrec, hscore, hboard, hfilter, h0]
    simp
  · intro h2
    rw [hscore, h2]
    norm_num

/-- C3 witness: a board with exactly its two bottom rows full gains exactly
`200` points. -/
theorem checkLines_spec_witness :
    (checkLines stateTwoFull).score = stateTwoFull.score + 200 :=
  (checkLines_spec stateTwoFull (by decide)).2.2.2.2.2.2 (by decide)

/-! ## Field-preservation lemmas for the operations -/

/-- `moveDown` never touches the game-over flag or the score. -/
theorem moveDown_fields (pick : Tetromino) (s : GameState) :
    (moveDown pick s).gameOver = s.gameOver ∧
      (moveDown pick s).score = s.score := by
  cases hc : s.currentPiece with
  | none => simp [moveDown, hc]
  | some p =>
    by_cases hv : isValidMove s.board p s.position.1 (s.position.2 + 1) = true
    · simp [moveDown, hc, hv]
    · simp [moveDown, hc, hv, spawnNewPiece, mergePieceToBoard]

/-- `moveHorizontally` only ever changes the position. -/
theorem moveHorizontally_fields (d : Int) (s : GameState) :
    (moveHorizontally d s).board = s.board ∧
      (moveHorizontally d s).currentPiece = s.currentPiece ∧
      (moveHorizontally d s).gameOver = s.gameOver ∧
      (moveHorizontally d s).score = s.score := by
  cases hc : s.currentPiece with
  | none => simp [moveHorizontally, hc]
  | some p =>
    by_cases hv : isValidMove s.board p (s.position.1 + d) s.position.2 = true
    · simp [moveHorizontally, hc, hv]
    · simp [moveHorizontally, hc, hv]

/-- `rotate` only ever changes the current piece. -/
theorem rotate_fields (s : GameState) :
    (rotate s).board = s.board ∧ (rotate s).position = s.position ∧
      (rotate s).gameOver = s.gameOver ∧ (rotate s).score = s.score := by
  cases hc : s.currentPiece with
  | none => simp [rotate, hc]
  | some p =>
    by_cases hv : isValidMove s.board { p with shape := rotateShape p.shape }
        s.position.1 s.position.2 = true
    · simp [rotate, hc, hv]
    · simp [rotate, hc, hv]

/-- `checkLines` only ever changes the board and the score. -/
theorem checkLines_fields (s : GameState) :
    (checkLines s).currentPiece = s.currentPiece ∧
      (checkLines s).position = s.position ∧
      (checkLines s).gameOver = s.gameOver :=
  ⟨rfl, rfl, rfl⟩

/-- `spawnEffect` never touches the board, the flag or the score. -/
theorem spawnEffect_fields (pick : Tetromino) (s : GameState) :
    (spawnEffect pick s).board = s.board ∧
      (spawnEffect pick s).gameOver = s.gameOver ∧
      (spawnEffect pick s).score = s.score := by
  by_cases hc : s.currentPiece = none <;> simp [spawnEffect, hc, spawnNewPiece]

/-- The game-over effect either leaves the state alone or only latches the
flag to `true`. -/
theorem checkGameOverEffect_cases (s : GameState) :
    checkGameOverEffect s = s ∨
      checkGameOverEffect s = { s with gameOver := true } := by
  cases hc : s.currentPiece with
  | none => exact Or.inl (by simp [checkGameOverEffect, hc])
  | some p =>
    by_cases hv : isValidMove s.board p s.position.1 s.position.2 = true
    · exact Or.inl (by simp [checkGameOverEffect, hc, hv])
    · exact Or.inr (by simp [checkGameOverEffect, hc, hv])

/-- `handleKeyPress` never touches the game-over flag or the score. -/
theorem handleKeyPress_fields (k : Key) (pick : Tetromino) (s : GameState) :
    (handleKeyPress k pick s).gameOver = s.gameOver ∧
      (handleKeyPress k pick s).score = s.score := by
  by_cases hg : s.gameOver = true
  · simp [handleKeyPress, hg]
  · cases k <;>
      simp [handleKeyPress, hg, moveDown_fields, moveHorizontally_fields,
        rotate_fields]

/-- `gameTick` never touches the game-over flag. -/
theorem gameTick_gameOver (pick : Tetromino) (s : GameState) :
    (gameTick pick s).gameOver = s.gameOver := by
  by_cases hg : s.gameOver = true
  · simp [gameTick, hg]
  · simp [gameTick, hg, (checkLines_fields _).2.2, (moveDown_fields pick _).1]

/-- No engine step ever clears the game-over flag. -/
theorem engineStep_gameOver_mono (i : Input) (pick : Tetromino)
    (s : GameState) :
    (engineStep i pick s).gameOver = false → s.gameOver = false := by
  cases i with
  | key k0 =>
    intro hf
    rcases checkGameOverEffect_cases
        (spawnEffect pick (handleKeyPress k0 pick s)) with he | he
    · rw [engineStep, he, (spawnEffect_fields pick _).2.1,
        (handleKeyPress_fields k0 pick s).1] at hf
      exact hf
    · rw [engineStep, he] at hf
      simp at hf
  | tick =>
    intro hf
    rcases checkGameOverEffect_cases
        (spawnEffect pick (gameTick pick s)) with he | he
    · rw [engineStep, he, (spawnEffect_fields pick _).2.1,
        gameTick_gameOver pick s] at hf
      exact hf
    · rw [engineStep, he] at hf
      simp at hf

/-- Re-latching an already latched flag changes nothing. -/
theorem setGameOver_eq_self {s : GameState} (h : s.gameOver = true) :
    { s with gameOver := true } = s := by
  cases s
  simp_all

/-- C5: once the game-over flag is `true` it is never cleared — no engine
step ever turns it back to `false` — and the keyboard and tick pathways
become complete no-ops, so board, piece and score can no longer change. -/
theorem gameOver_latch (s s' : GameState) (k : Key) (i i' : Input)
    (pick pick' : Tetromino) (h : s.gameOver = true) :
    handleKeyPress k pick s = s ∧
    gameTick pick s = s ∧
    (engineStep i pick s).gameOver = true ∧
    (s.currentPiece ≠ none → engineStep i pick s = s) ∧
    ((engineStep i' pick' s').gameOver = false → s'.gameOver = false) := by
  have hkey : ∀ k0, handleKeyPress k0 pick s = s := fun k0 => by
    simp [handleKeyPress, h]
  have htick : gameTick pick s = s := by simp [gameTick, h]
  have hinner : (match i with
      | Input.key k0 => handleKeyPress k0 pick s
      | Input.tick => gameTick pick s) = s := by
    cases i with
    | key k0 => exact hkey k0
    | tick => exact htick
  have hstep : engineStep i pick s =
      checkGameOverEffect (spawnEffect pick s) := by
    rw [engineStep.eq_def, hinner]
  refine ⟨hkey k, htick, ?_, ?_, ?_⟩
  · rw [hstep]
    rcases checkGameOverEffect_cases (spawnEffect pick s) with he | he <;>
      rw [he] <;> simp [(spawnEffect_fields pick s).2.1, h]
  · intro hc
    have hse : spawnEffect pick s = s := by simp [spawnEffect, hc]
    rw [hstep, hse]
    rcases checkGameOverEffect_cases s with he | he
    · exact he
    · rw [he]
      exact setGameOver_eq_self h
  · exact engineStep_gameOver_mono i' pick' s'

/-- C5 witness: in a concrete game-over state every pathway is inert. -/
theorem gameOver_latch_witness :
    handleKeyPress Key.down pieceO stateOver = stateOver ∧
      gameTick pieceO stateOver = stateOver ∧
      engineStep (Input.key Key.down) pieceO stateOver = stateOver := by
  have h := gameOver_latch stateOver initialState Key.down
    (Input.key Key.down) Input.tick pieceO pieceO rfl
  exact ⟨h.1, h.2.1, h.2.2.2.1 (by decide)⟩

/-! ## The inductive invariant -/

/-- Merging preserves board well-formedness. -/
theorem boardWF_mergedBoard {b : Board} (p : Tetromino) (px py : Int)
    (h : boardWF b) : boardWF (mergedBoard b p px py) := by
  obtain ⟨hlen, hrow⟩ := h
  constructor
  · rw [mergedBoard_length]; exact hlen
  · intro r hr
    rw [List.mem_iff_getElem] at hr
    obtain ⟨j, hj, hjr⟩ := hr
    rw [← hjr]
    simp only [mergedBoard, List.getElem_map, List.getElem_enum,
      List.length_map, List.enum_length]
    exact hrow _ (List.getElem_mem _)

/-- Line clearing preserves board well-formedness. -/
theorem boardWF_checkLines {s : GameState} (h : boardWF s.board) :
    boardWF (checkLines s).board := by
  obtain ⟨hlen, hrow⟩ := h
  have hle : (s.board.filter rowHasEmpty).length ≤ BOARD_HEIGHT := by
    rw [← hlen]; exact List.length_filter_le _ _
  have hcb : (checkLines s).board = padRows (s.board.filter rowHasEmpty) := rfl
  constructor
  · rw [hcb, padRows_eq]
    simp only [List.length_append, List.length_replicate]
    omega
  · intro r hr
    rw [hcb, padRows_eq] at hr
    rcases List.mem_append.mp hr with hr | hr
    · rw [List.eq_of_mem_replicate hr]
      simp [emptyRow]
    · exact hrow r (List.mem_of_mem_filter hr)

/-- `moveDown` preserves the row count of the board. -/
theorem moveDown_board_length (pick : Tetromino) (s : GameState) :
    (moveDown pick s).board.length = s.board.length := by
  cases hc : s.currentPiece with
  | none => simp [moveDown, hc]
  | some p =>
    by_cases hv : isValidMove s.board p s.position.1 (s.position.2 + 1) = true
    · simp [moveDown, hc, hv]
    · simp [moveDown, hc, hv, spawnNewPiece, mergePieceToBoard,
        mergedBoard_length]

/-- `moveDown` preserves well-formedness and row nonnegativity. -/
theorem moveDown_wf_pos (pick : Tetromino) {s : GameState}
    (hWF : boardWF s.board) (hpos : 0 ≤ s.position.2) :
    boardWF (moveDown pick s).board ∧ 0 ≤ (moveDown pick s).position.2 := by
  cases hc : s.currentPiece with
  | none =>
    rw [show moveDown pick s = s from by simp [moveDown, hc]]
    exact ⟨hWF, hpos⟩
  | some p =>
    by_cases hv : isValidMove s.board p s.position.1 (s.position.2 + 1) = true
    · rw [show moveDown pick s = { s with position := (s.position.1, s.position.2 + 1) }
        from by simp [moveDown, hc, hv]]
      exact ⟨hWF, by simp; omega⟩
    · rw [show moveDown pick s = { s with
          board := mergedBoard s.board p s.position.1 s.position.2
          currentPiece := some pick
          position := ((BOARD_WIDTH : Int) / 2 - 1, 0) }
        from by simp [moveDown, hc, hv, spawnNewPiece, mergePieceToBoard]]
      exact ⟨boardWF_mergedBoard p _ _ hWF, by simp⟩

/-- `moveHorizontally` preserves the origin row. -/
theorem moveHorizontally_pos (d : Int) (s : GameState) :
    (moveHorizontally d s).position.2 = s.position.2 := by
  cases hc : s.currentPiece with
  | none => simp [moveHorizontally, hc]
  | some p =>
    by_cases hv : isValidMove s.board p (s.position.1 + d) s.position.2 = true
    · simp [moveHorizontally, hc, hv]
    · simp [moveHorizontally, hc, hv]

/-- The game-over effect only ever touches the flag. -/
theorem checkGameOverEffect_fields (s : GameState) :
    (checkGameOverEffect s).board = s.board ∧
      (checkGameOverEffect s).currentPiece = s.currentPiece ∧
      (checkGameOverEffect s).position = s.position ∧
      (checkGameOverEffect s).score = s.score := by
  rcases checkGameOverEffect_cases s with he | he <;> rw [he] <;>
    exact ⟨rfl, rfl, rfl, rfl⟩

/-- After the game-over effect, a still-running state holds a piece that is
valid at its own position. -/
theorem checkGameOverEffect_valid (t : GameState) :
    (checkGameOverEffect t).gameOver = false →
      ∀ p, (checkGameOverEffect t).currentPiece = some p →
        isValidMove (checkGameOverEffect t).board p
          (checkGameOverEffect t).position.1
          (checkGameOverEffect t).position.2 = true := by
  cases hc : t.currentPiece with
  | none =>
    intro hg p hp
    rw [show checkGameOverEffect t = t from by simp [checkGameOverEffect, hc]]
      at hp
    rw [hc] at hp
    exact absurd hp (by simp)
  | some q =>
    by_cases hv : isValidMove t.board q t.position.1 t.position.2 = true
    · intro hg p hp
      rw [show checkGameOverEffect t = t from by
        simp [checkGameOverEffect, hc, hv]] at hp ⊢
      rw [hc] at hp
      obtain rfl : q = p := by simpa using hp
      exact hv
    · intro hg
      rw [show checkGameOverEffect t = { t with gameOver := true } from by
        simp [checkGameOverEffect, hc, hv]] at hg
      exact absurd hg (by simp)

/-- Well-formedness and row nonnegativity survive a key press. -/
theorem handleKeyPress_wf_pos (k : Key) (pick : Tetromino) {s : GameState}
    (hWF : boardWF s.board) (hpos : 0 ≤ s.position.2) :
    boardWF (handleKeyPress k pick s).board ∧
      0 ≤ (handleKeyPress k pick s).position.2 := by
  by_cases hg : s.gameOver = true
  · rw [show handleKeyPress k pick s = s from by simp [handleKeyPress, hg]]
    exact ⟨hWF, hpos⟩
  · cases k with
    | left =>
      rw [show handleKeyPress Key.left pick s = moveHorizontally (-1) s from by
        simp [handleKeyPress, hg]]
      rw [(moveHorizontally_fields (-1) s).1, moveHorizontally_pos]
      exact ⟨hWF, hpos⟩
    | right =>
      rw [show handleKeyPress Key.right pick s = moveHorizontally 1 s from by
        simp [handleKeyPress, hg]]
      rw [(moveHorizontally_fields 1 s).1, moveHorizontally_pos]
      exact ⟨hWF, hpos⟩
    | down =>
      rw [show handleKeyPress Key.down pick s = moveDown pick s from by
        simp [handleKeyPress, hg]]
      exact moveDown_wf_pos pick hWF hpos
    | up =>
      rw [show handleKeyPress Key.up pick s = rotate s from by
        simp [handleKeyPress, hg]]
      rw [(rotate_fields s).1, (rotate_fields s).2.1]
      exact ⟨hWF, hpos⟩
    | other =>
      rw [show handleKeyPress Key.other pick s = s from by
        simp [handleKeyPress, hg]]
      exact ⟨hWF, hpos⟩

/-- Well-formedness and row nonnegativity survive a tick. -/
theorem gameTick_wf_pos (pick : Tetromino) {s : GameState}
    (hWF : boardWF s.board) (hpos : 0 ≤ s.position.2) :
    boardWF (gameTick pick s).board ∧ 0 ≤ (gameTick pick s).position.2 := by
  by_cases hg : s.gameOver = true
  · rw [show gameTick pick s = s from by simp [gameTick, hg]]
    exact ⟨hWF, hpos⟩
  · rw [show gameTick pick s = checkLines (moveDown pick s) from by
      simp [gameTick, hg]]
    obtain ⟨hWF', hpos'⟩ := moveDown_wf_pos pick hWF hpos
    refine ⟨boardWF_checkLines hWF', ?_⟩
    rw [(checkLines_fields _).2.1]
    exact hpos'

/-- The initial state satisfies the invariant. -/
theorem inv_initialState : Inv initialState := by
  refine ⟨⟨by simp [initialState, createEmptyBoard], ?_⟩,
    by simp [initialState], ?_⟩
  · intro r hr
    simp only [initialState, createEmptyBoard] at hr
    rw [List.eq_of_mem_replicate hr]
    simp [emptyRow]
  · intro hg p hp
    exact absurd hp (by simp [initialState])

/-- Every engine step preserves the invariant. -/
theorem inv_engineStep (i : Input) (pick : Tetromino) {s : GameState}
    (h : Inv s) : Inv (engineStep i pick s) := by
  obtain ⟨hWF, hpos, -⟩ := h
  have hinner : boardWF (match i with
        | Input.key k => handleKeyPress k pick s
        | Input.tick => gameTick pick s).board ∧
      0 ≤ (match i with
        | Input.key k => handleKeyPress k pick s
        | Input.tick => gameTick pick s).position.2 := by
    cases i with
    | key k => exact handleKeyPress_wf_pos k pick hWF hpos
    | tick => exact gameTick_wf_pos pick hWF hpos
  obtain ⟨hWF1, hpos1⟩ := hinner
  set t := (match i with
    | Input.key k => handleKeyPress k pick s
    | Input.tick => gameTick pick s) with ht
  have hWF2 : boardWF (spawnEffect pick t).board := by
    rw [(spawnEffect_fields pick t).1]; exact hWF1
  have hpos2 : 0 ≤ (spawnEffect pick t).position.2 := by
    by_cases hc : t.currentPiece = none
    · simp [spawnEffect, hc, spawnNewPiece]
    · simp [spawnEffect, hc]
      exact hpos1
  have hstep : engineStep i pick s = checkGameOverEffect (spawnEffect pick t) := rfl
  rw [hstep]
  obtain ⟨hb, -, hp2, -⟩ := checkGameOverEffect_fields (spawnEffect pick t)
  refine ⟨?_, ?_, ?_⟩
  · rw [hb]; exact hWF2
  · rw [hp2]; exact hpos2
  · exact checkGameOverEffect_valid (spawnEffect pick t)

/-- Every reachable state satisfies the invariant. -/
theorem reachable_inv {s : GameState} (h : Reachable s) : Inv s := by
  induction h with
  | init => exact inv_initialState
  | next i pick hs ih => exact inv_engineStep i pick ih

/-- C7: in every reachable state the board is exactly
`BOARD_HEIGHT x BOARD_WIDTH`, and no operation except the line clear ever
overwrites an occupied cell: `moveHorizontally` and `rotate` never touch the
board at all, and the merge performed by `moveDown` in a running state leaves
every occupied cell with its old value. -/
theorem board_invariant (s : GameState) (pick : Tetromino) (d : Int)
    (j i : Nat) (c : String) (h : Reachable s) :
    (s.board.length = BOARD_HEIGHT ∧ ∀ r ∈ s.board, r.length = BOARD_WIDTH) ∧
    (moveHorizontally d s).board = s.board ∧
    (rotate s).board = s.board ∧
    (s.gameOver = false →
      (s.board.getD j []).getD i none = some c →
      ((moveDown pick s).board.getD j []).getD i none = some c) := by
  obtain ⟨hWF, hpos, hvalid⟩ := reachable_inv h
  refine ⟨hWF, (moveHorizontally_fields d s).1, (rotate_fields s).1, ?_⟩
  intro hg hc
  have hj : j < s.board.length := by
    by_contra hj
    push_neg at hj
    rw [List.getD_eq_default _ _ hj] at hc
    exact absurd hc (by simp)
  have hi : i < (s.board.getD j []).length := by
    by_contra hi
    push_neg at hi
    rw [List.getD_eq_default _ _ hi] at hc
    exact absurd hc (by simp)
  cases hcp : s.currentPiece with
  | none =>
    rw [show moveDown pick s = s from by simp [moveDown, hcp]]
    exact hc
  | some p =>
    by_cases hv : isValidMove s.board p s.position.1 (s.position.2 + 1) = true
    · rw [show (moveDown pick s).board = s.board from by simp [moveDown, hcp, hv]]
      exact hc
    · have hb : (moveDown pick s).board =
          mergedBoard s.board p s.position.1 s.position.2 := by
        simp [moveDown, hcp, hv, spawnNewPiece, mergePieceToBoard]
      rw [hb, mergedBoard_getD _ _ _ _ _ _ hj hi]
      have hval := hvalid hg p hcp
      rw [isValidMove_eq_true_iff] at hval
      by_cases hcov :
          coversCell p s.position.1 s.position.2 (i : Int) (j : Int) = true
      · exfalso
        simp only [coversCell, Bool.and_eq_true, decide_eq_true_eq] at hcov
        obtain ⟨⟨hpx, hpy⟩, hocc⟩ := hcov
        have hnb := hval _ _ hocc
        have hxi : s.position.1 + ((((i : Int) - s.position.1).toNat : Nat) : Int) =
            (i : Int) := by omega
        have hyj : s.position.2 + ((((j : Int) - s.position.2).toNat : Nat) : Int) =
            (j : Int) := by omega
        rw [hxi, hyj] at hnb
        simp only [blockedAt, not_or] at hnb
        have hempty : cellAt s.board (i : Int) (j : Int) = none := by
          by_contra hne
          exact hnb.2.2.2 ⟨by positivity, hne⟩
        simp only [cellAt, Int.toNat_natCast] at hempty
        rw [hc] at hempty
        exact absurd hempty (by simp)
      · rw [if_neg (by simpa using hcov)]
        exact hc

/-- C7 witness: the initial board has the right dimensions and a lateral
move leaves it untouched. -/
theorem board_invariant_witness :
    initialState.board.length = BOARD_HEIGHT ∧
      (moveHorizontally 1 initialState).board = initialState.board := by
  have h := board_invariant initialState pieceO 1 0 0 "x" Reachable.init
  exact ⟨h.1.1, h.2.1⟩

/-- C9: along every reachable state the score never decreases: an engine
step can only raise it, `checkLines` raises it by exactly `100` per full row,
and the move operations never touch it. -/
theorem score_monotone (s : GameState) (i : Input) (pick : Tetromino)
    (d : Int) (h : Reachable s) :
    s.score ≤ (engineStep i pick s).score ∧
    (checkLines s).score =
      s.score + (s.board.countP fun r => !rowHasEmpty r) * 100 ∧
    (moveDown pick s).score = s.score ∧
    (moveHorizontally d s).score = s.score ∧
    (rotate s).score = s.score := by
  obtain ⟨⟨hlen, hrowl⟩, -, -⟩ := reachable_inv h
  have hCL : ∀ t : GameState, t.board.length = BOARD_HEIGHT →
      (checkLines t).score =
        t.score + (t.board.countP fun r => !rowHasEmpty r) * 100 := by
    intro t ht
    have hsum := filter_length_add_countP t.board ht
    show t.score +
        ((BOARD_HEIGHT : Int) - ((t.board.filter rowHasEmpty).length : Int)) * 100 = _
    have hcast : (BOARD_HEIGHT : Int) - ((t.board.filter rowHasEmpty).length : Int) =
        ((t.board.countP fun r => !rowHasEmpty r : Nat) : Int) := by
      omega
    rw [hcast]
  refine ⟨?_, hCL s hlen, (moveDown_fields pick s).2,
    (moveHorizontally_fields d s).2.2.2, (rotate_fields s).2.2.2⟩
  have hstep : engineStep i pick s =
      checkGameOverEffect (spawnEffect pick
        (match i with
         | Input.key k => handleKeyPress k pick s
         | Input.tick => gameTick pick s)) := rfl
  rw [hstep, (checkGameOverEffect_fields _).2.2.2, (spawnEffect_fields _ _).2.2]
  cases i with
  | key k =>
    rw [(handleKeyPress_fields k pick s).2]
  | tick =>
    by_cases hg : s.gameOver = true
    · rw [show gameTick pick s = s from by simp [gameTick, hg]]
    · rw [show gameTick pick s = checkLines (moveDown pick s) from by
        simp [gameTick, hg]]
      have hlen' : (moveDown pick s).board.length = BOARD_HEIGHT := by
        rw [moveDown_board_length]; exact hlen
      rw [hCL _ hlen', (moveDown_fields pick s).2]
      omega

/-- C9 witness: from the initial state, a tick cannot lower the score, and
`checkLines` on the empty board adds `100` points per full row (zero). -/
theorem score_monotone_witness :
    initialState.score ≤ (engineStep Input.tick pieceO initialState).score ∧
      (checkLines initialState).score =
        initialState.score +
          (initialState.board.countP fun r => !rowHasEmpty r) * 100 := by
  have h := score_monotone initialState Input.tick pieceO 1 Reachable.init
  exact ⟨h.1, h.2.1⟩

/-- C10: in every reachable running state the piece origin's row is
nonnegative and every occupied cell of the piece lies inside the board, so
the merge loop of `mergePieceToBoard` only ever writes in bounds and a piece
can never settle while partially above the visible board. -/
theorem merge_in_bounds (s : GameState) (p : Tetromino) (j i : Nat)
    (h : Reachable s) (hg : s.gameOver = false)
    (hp : s.currentPiece = some p) (hocc : shapeCellAt p.shape j i ≠ 0) :
    0 ≤ s.position.2 ∧
    0 ≤ s.position.1 + (i : Int) ∧
    s.position.1 + (i : Int) < (BOARD_WIDTH : Int) ∧
    0 ≤ s.position.2 + (j : Int) ∧
    s.position.2 + (j : Int) < (BOARD_HEIGHT : Int) := by
  obtain ⟨hWF, hpos, hvalid⟩ := reachable_inv h
  have hv := hvalid hg p hp
  rw [isValidMove_eq_true_iff] at hv
  have hnb := hv j i hocc
  simp only [blockedAt, not_or, not_lt, not_le] at hnb
  obtain ⟨h1, h2, h3, -⟩ := hnb
  exact ⟨hpos, h1, h2, by omega, h3⟩

/-- C10 witness: after the first tick the freshly spawned O piece sits fully
inside the board. -/
theorem merge_in_bounds_witness :
    0 ≤ (engineStep Input.tick pieceO initialState).position.2 ∧
    0 ≤ (engineStep Input.tick pieceO initialState).position.1 + ((0 : Nat) : Int) ∧
    (engineStep Input.tick pieceO initialState).position.1 + ((0 : Nat) : Int) <
      (BOARD_WIDTH : Int) ∧
    0 ≤ (engineStep Input.tick pieceO initialState).position.2 + ((0 : Nat) : Int) ∧
    (engineStep Input.tick pieceO initialState).position.2 + ((0 : Nat) : Int) <
      (BOARD_HEIGHT : Int) :=
  merge_in_bounds (engineStep Input.tick pieceO initialState) pieceO 0 0
    (Reachable.next Input.tick pieceO Reachable.init) (by decide) (by decide)
    (by decide)

/-! ## Rotation has order four on rectangular shapes -/

/-- The rotated matrix has one row per column of the bounding box. -/
theorem rotateShape_length (m : List (List Nat)) :
    (rotateShape m).length = (m.headD []).length := by
  simp [rotateShape]

/-- Every row of the rotated matrix has one cell per row of the input. -/
theorem rotateShape_rows (m : List (List Nat)) :
    ∀ r ∈ rotateShape m, r.length = m.length := by
  intro r hr
  simp only [rotateShape, List.mem_map, List.mem_range] at hr
  obtain ⟨q, hq, rfl⟩ := hr
  simp

/-- In a rectangular nonempty matrix the head row has the common width. -/
theorem headD_length_of_rect {m : List (List Nat)} {w : Nat} (hm : m ≠ [])
    (hrect : ∀ r ∈ m, r.length = w) : (m.headD []).length = w := by
  cases m with
  | nil => exact absurd rfl hm
  | cons a l => exact hrect a (List.mem_cons_self a l)

/-- Outside a rectangular matrix every lookup is `0`. -/
theorem shapeCellAt_eq_zero_of_out {m : List (List Nat)} {w j i : Nat}
    (hrect : ∀ r ∈ m, r.length = w) (hout : ¬(j < m.length ∧ i < w)) :
    shapeCellAt m j i = 0 := by
  by_cases hj : j < m.length
  · have hi : w ≤ i := by omega
    unfold shapeCellAt
    rw [List.getD_eq_getElem m [] hj]
    apply List.getD_eq_default
    rw [hrect m[j] (List.getElem_mem hj)]
    exact hi
  · unfold shapeCellAt
    rw [List.getD_eq_default m [] (by omega)]
    simp

/-- Rotating the empty matrix yields the empty matrix. -/
theorem rotateShape_nil : rotateShape ([] : List (List Nat)) = [] := by
  simp [rotateShape]

/-- Cell-level description of one rotation: cell `(j, i)` of the rotation is
cell `(length - 1 - i, j)` of the input, and `0` outside the rotated
bounding box. -/
theorem shapeCellAt_rotateShape (m : List (List Nat)) (j i : Nat) :
    shapeCellAt (rotateShape m) j i =
      if j < (m.headD []).length ∧ i < m.length then
        shapeCellAt m (m.length - 1 - i) j
      else 0 := by
  have hlen : (rotateShape m).length = (m.headD []).length := rotateShape_length m
  by_cases hj : j < (m.headD []).length
  · have hj' : j < (rotateShape m).length := by rw [hlen]; exact hj
    have hrow : (rotateShape m).getD j [] = (rotateShape m)[j] :=
      List.getD_eq_getElem _ _ hj'
    have hrow2 : (rotateShape m)[j] =
        (m.map fun row => row.getD j 0).reverse := by
      simp only [rotateShape]
      rw [List.getElem_map, List.getElem_range]
    by_cases hi : i < m.length
    · rw [if_pos ⟨hj, hi⟩]
      unfold shapeCellAt
      rw [hrow, hrow2]
      have hil : i < ((m.map fun row => row.getD j 0).reverse).length := by
        simpa using hi
      rw [List.getD_eq_getElem _ _ hil, List.getElem_reverse, List.getElem_map]
      have hmi : m.length - 1 - i < m.length := by omega
      rw [List.getD_eq_getElem m [] hmi]
      congr 2
      simp
    · rw [if_neg (fun hcon => hi hcon.2)]
      unfold shapeCellAt
      rw [hrow, hrow2]
      apply List.getD_eq_default
      simp only [List.length_reverse, List.length_map]
      omega
  · rw [if_neg (fun hcon => hj hcon.1)]
    unfold shapeCellAt
    rw [List.getD_eq_default (rotateShape m) []
      (show (rotateShape m).length ≤ j by rw [hlen]; omega)]
    simp

/-- The dimensions of one rotation of a nonempty rectangular matrix. -/
theorem rotate_dims {m : List (List Nat)} {w : Nat} (hm : m ≠ [])
    (hw : 0 < w) (hrect : ∀ r ∈ m, r.length = w) :
    (rotateShape m).length = w ∧
    (∀ r ∈ rotateShape m, r.length = m.length) ∧
    rotateShape m ≠ [] ∧
    ((rotateShape m).headD []).length = m.length := by
  have hhead : (m.headD []).length = w := headD_length_of_rect hm hrect
  have hlen : (rotateShape m).length = w := by rw [rotateShape_length, hhead]
  have hrows := rotateShape_rows m
  have hne : rotateShape m ≠ [] := by
    intro hcon
    rw [hcon] at hlen
    simp at hlen
    omega
  exact ⟨hlen, hrows, hne, headD_length_of_rect hne hrows⟩

/-- Accepted rotations replace only the piece's shape. -/
theorem rotate_eq_of_valid {s : GameState} {p : Tetromino}
    (hp : s.currentPiece = some p)
    (hv : isValidMove s.board { p with shape := rotateShape p.shape }
      s.position.1 s.position.2 = true) :
    rotate s = { s with currentPiece := some { p with shape := rotateShape p.shape } } := by
  simp [rotate, hp, hv]

/-- C8: applying the source's rotation transform four times restores the
original cell pattern of any rectangular shape matrix, and four consecutive
accepted `rotate` calls leave the engine's piece carrying the four-fold
rotation of its original shape (hence the original pattern). -/
theorem rotate_four_round_trip :
    (∀ (m : List (List Nat)) (w j i : Nat), (∀ r ∈ m, r.length = w) →
      shapeCellAt (rotateShape (rotateShape (rotateShape (rotateShape m)))) j i =
        shapeCellAt m j i) ∧
    (∀ (s : GameState) (p : Tetromino),
      s.currentPiece = some p →
      isValidMove s.board { p with shape := rotateShape p.shape }
        s.position.1 s.position.2 = true →
      isValidMove s.board { p with shape := rotateShape (rotateShape p.shape) }
        s.position.1 s.position.2 = true →
      isValidMove s.board
        { p with shape := rotateShape (rotateShape (rotateShape p.shape)) }
        s.position.1 s.position.2 = true →
      isValidMove s.board
        { p with
            shape := rotateShape (rotateShape (rotateShape (rotateShape p.shape))) }
        s.position.1 s.position.2 = true →
      (rotate (rotate (rotate (rotate s)))).currentPiece =
        some { p with
            shape := rotateShape (rotateShape (rotateShape (rotateShape p.shape))) }) := by
  constructor
  · intro m w j i hrect
    by_cases hm : m = []
    · subst hm
      rw [rotateShape_nil, rotateShape_nil, rotateShape_nil, rotateShape_nil]
    · by_cases hw : w = 0
      · subst hw
        have hz : shapeCellAt m j i = 0 :=
          shapeCellAt_eq_zero_of_out hrect (by omega)
        have h1 : rotateShape m = [] := by
          have hh : (m.headD []).length = 0 := headD_length_of_rect hm hrect
          unfold rotateShape
          rw [hh]
          simp
        rw [h1, rotateShape_nil, rotateShape_nil, rotateShape_nil, hz]
        simp [shapeCellAt]
      · have hw' : 0 < w := Nat.pos_of_ne_zero hw
        have hh' : 0 < m.length := List.length_pos.mpr hm
        have hhead : (m.headD []).length = w := headD_length_of_rect hm hrect
        obtain ⟨d1len, d1rows, d1ne, d1head⟩ := rotate_dims hm hw' hrect
        obtain ⟨d2len, d2rows0, d2ne, d2head⟩ := rotate_dims d1ne hh' d1rows
        have d2rows : ∀ r ∈ rotateShape (rotateShape m), r.length = w := by
          intro r hr
          rw [d2rows0 r hr, d1len]
        obtain ⟨d3len, d3rows0, d3ne, d3head⟩ := rotate_dims d2ne hw' d2rows
        have d3rows : ∀ r ∈ rotateShape (rotateShape (rotateShape m)),
            r.length = m.length := by
          intro r hr
          rw [d3rows0 r hr, d2len]
        by_cases hIn : j < m.length ∧ i < w
        · rw [shapeCellAt_rotateShape, d3head, d3len, d2len,
            if_pos (show j < m.length ∧ i < w from hIn)]
          rw [shapeCellAt_rotateShape, d2head, d2len, d1len,
            if_pos (show w - 1 - i < w ∧ j < m.length by
              constructor <;> omega)]
          rw [shapeCellAt_rotateShape, d1head, d1len,
            if_pos (show m.length - 1 - j < m.length ∧ w - 1 - i < w by
              constructor <;> omega)]
          rw [shapeCellAt_rotateShape, hhead,
            if_pos (show w - 1 - (w - 1 - i) < w ∧
                m.length - 1 - j < m.length by
              constructor <;> omega)]
          have e1 : m.length - 1 - (m.length - 1 - j) = j := by omega
          have e2 : w - 1 - (w - 1 - i) = i := by omega
          rw [e1, e2]
        · obtain ⟨d4len, d4rows0, -, -⟩ := rotate_dims d3ne hh' d3rows
          have d4rows : ∀ r ∈ rotateShape (rotateShape (rotateShape (rotateShape m))),
              r.length = w := by
            intro r hr
            rw [d4rows0 r hr, d3len]
          have hz : shapeCellAt m j i = 0 :=
            shapeCellAt_eq_zero_of_out hrect hIn
          have hz4 :
              shapeCellAt
                (rotateShape (rotateShape (rotateShape (rotateShape m)))) j i = 0 := by
            apply shapeCellAt_eq_zero_of_out d4rows
            rw [d4len]
            exact hIn
          rw [hz, hz4]
  · intro s p hp h1 h2 h3 h4
    have hb1 : (rotate s).board = s.board := (rotate_fields s).1
    have hq1 : (rotate s).position = s.position := (rotate_fields s).2.1
    have e1 := rotate_eq_of_valid hp h1
    have hp1 : (rotate s).currentPiece =
        some { p with shape := rotateShape p.shape } := by rw [e1]
    have e2 := rotate_eq_of_valid hp1 (by rw [hb1, hq1]; exact h2)
    have hb2 : (rotate (rotate s)).board = s.board := by
      rw [(rotate_fields (rotate s)).1, hb1]
    have hq2 : (rotate (rotate s)).position = s.position := by
      rw [(rotate_fields (rotate s)).2.1, hq1]
    have hp2 : (rotate (rotate s)).currentPiece =
        some { p with shape := rotateShape (rotateShape p.shape) } := by rw [e2]
    have e3 := rotate_eq_of_valid hp2 (by rw [hb2, hq2]; exact h3)
    have hb3 : (rotate (rotate (rotate s))).board = s.board := by
      rw [(rotate_fields (rotate (rotate s))).1, hb2]
    have hq3 : (rotate (rotate (rotate s))).position = s.position := by
      rw [(rotate_fields (rotate (rotate s))).2.1, hq2]
    have hp3 : (rotate (rotate (rotate s))).currentPiece =
        some { p with shape := rotateShape (rotateShape (rotateShape p.shape)) } := by
      rw [e3]
    have e4 := rotate_eq_of_valid hp3 (by rw [hb3, hq3]; exact h4)
    rw [e4]

/-- C8 witness: four rotations of the O piece at spawn, all accepted, leave
both the pure cell pattern and the engine's piece unchanged. -/
theorem rotate_four_round_trip_witness :
    shapeCellAt
        (rotateShape (rotateShape (rotateShape (rotateShape [[1, 1], [1, 1]])))) 0 1 =
      shapeCellAt [[1, 1], [1, 1]] 0 1 ∧
    (rotate (rotate (rotate (rotate stateO)))).currentPiece =
      some { pieceO with
          shape := rotateShape (rotateShape (rotateShape (rotateShape pieceO.shape))) } :=
  ⟨rotate_four_round_trip.1 [[1, 1], [1, 1]] 2 0 1 (by decide),
   rotate_four_round_trip.2 stateO pieceO rfl (by decide) (by decide) (by decide)
     (by decide)⟩

end Tetris
